import Mathlib

/-!
# Nest client: handshake and stream-renewal timer (`pkg/nest/client.go`)

A shallow embedding of `NewClient`, `Client.Start`, `Client.StartExtendStreamTimer`,
`Client.ExtendStream` and `Client.Stop`.

* The collaborators that live outside `client.go` (`url.Parse`, `NewAPI`, `webrtc.NewAPI`,
  `NewPeerConnection`, the methods of `*webrtc.Conn` and of `*API`) are the fields of `Env`:
  the general theorems quantify over all of their possible behaviours.
* The mutable heap object `*Client` together with the Go runtime state it interacts with
  (clock, armed runtime timers, the sequence of collaborator calls made so far) is the
  explicit state `Sys`.
* A nil pointer is `none`; a run-time panic is the `Outcome.panicked` result.
* Timer callbacks are executed atomically (one `fire` step), so the embedding describes
  sequential runs; interleavings of a running callback with `Stop` are outside it.
-/

namespace Nest

/-! ## Go values used by the client -/

/-- Go `error` values, identified by their message. -/
abbrev GoError := String

deriving instance DecidableEq for Except

/-- Result of a Go call that may panic. -/
inductive Outcome (α : Type) where
  | returned (a : α)
  | panicked (msg : String)
deriving DecidableEq, Repr

/-- Type `url.Values` (`map[string][]string`), as an association list. -/
structure Values where
  entries : List (String × List String)
deriving DecidableEq, Repr

/-- Map indexing `v[key]`: the stored slice, or the nil slice for an absent key. -/
def Values.index (v : Values) (key : String) : List String :=
  (v.entries.lookup key).getD []

/-- Method `url.Values.Get`: the first value associated with the key, `""` if there is none. -/
def Values.Get (v : Values) (key : String) : String :=
  match v.index key with
  | [] => ""
  | x :: _ => x

/-- A parsed `*url.URL`; `NewClient` only ever calls `u.Query()` on it. -/
structure URL where
  Query : Values
deriving DecidableEq, Repr

/-- Type `time.Duration`: a count of nanoseconds held in an `int64`. -/
abbrev Duration := Int

/-- Constant `time.Second`. -/
def Second : Duration := 1000000000

/-- Smallest `time.Duration`, `-1 << 63`. -/
def minDuration : Duration := -9223372036854775808

/-- Largest `time.Duration`, `1<<63 - 1`. -/
def maxDuration : Duration := 9223372036854775807

/-- Type `time.Time`: an instant, in nanoseconds relative to the Unix epoch. The range of
instants is not bounded here (Go covers several hundred billion years). -/
structure Time where
  ns : Int
deriving DecidableEq, Repr

/-- Method `Time.Add`. -/
def Time.Add (t : Time) (d : Duration) : Time := ⟨t.ns + d⟩

/-- Method `Time.Sub`: the difference `t - u`; as documented for package `time`, a difference
that does not fit a `Duration` yields the minimum or the maximum duration. -/
def Time.Sub (t u : Time) : Duration :=
  if t.ns - u.ns < minDuration then minDuration
  else if maxDuration < t.ns - u.ns then maxDuration
  else t.ns - u.ns

/-- Function `time.Until(t)`, which is `t.Sub(time.Now())`; the clock reading is explicit. -/
def timeUntil (now : Time) (t : Time) : Duration := t.Sub now

/-- Type `core.Media`, with the two fields the client sets. -/
structure Media where
  Kind : String
  Direction : String
deriving DecidableEq, Repr

/-- Constant `core.KindAudio` (declared in `pkg/core`). -/
def KindAudio : String := "audio"

/-- Constant `core.KindVideo` (declared in `pkg/core`). -/
def KindVideo : String := "video"

/-- Constant `core.DirectionRecvonly` (declared in `pkg/core`). -/
def DirectionRecvonly : String := "recvonly"

/-- Type `core.Mode`; only `ModeActiveProducer` is used by the client. -/
inductive Mode where
  | unset
  | ModeActiveProducer
deriving DecidableEq, Repr

/-- Handle of a `*pion.PeerConnection`. -/
structure PC where
  handle : Nat
deriving DecidableEq, Repr

/-- Handle of a `*nest.API`. -/
structure API where
  handle : Nat
deriving DecidableEq, Repr

/-- Type `webrtc.Conn`, as far as the client touches it. -/
structure Conn where
  pc : PC
  Desc : String
  Mode : Mode
deriving DecidableEq, Repr

/-- Function `webrtc.NewConn`. -/
def NewConn (pc : PC) : Conn := { pc := pc, Desc := "", Mode := Mode.unset }

/-- The struct `Client`; `timer` is a `*time.Timer`, `none` being the nil pointer. -/
structure Client where
  conn : Conn
  projectId : String
  deviceId : String
  mediaSessionId : String
  streamExpiresAt : Time
  nestApi : API
  timer : Option Nat
deriving DecidableEq, Repr

/-! ## Runtime state -/

/-- One collaborator call, as observed by a spy. An `ExtendStream` entry also records what
the API answered. -/
inductive Call where
  | NewAPI (clientID clientSecret refreshToken : String)
  | webrtcNewAPI
  | NewPeerConnection
  | CreateCompleteOffer (medias : List Media)
  | ExchangeSDP (projectID deviceID offer : String)
  | SetAnswer (answer : String)
  | ExtendStream (projectID deviceID mediaSessionID : String)
      (res : Except GoError (String × Time))
  | AfterFunc (d : Duration)
  | TimerStop (id : Nat)
  | ConnStart
  | ConnStop
deriving DecidableEq, Repr

/-- A runtime timer created by `time.AfterFunc`: the requested delay `d` and the instant
`when` at which the runtime runs the callback. -/
structure Timer where
  id : Nat
  d : Duration
  when : Time
deriving DecidableEq, Repr

/-- What the Go runtime and the collaborators hold: the clock, the timers that are armed and
have neither fired nor been stopped, the next fresh timer identity, the calls made so far and
the peer connections that were created and not closed. -/
structure World where
  now : Time
  timers : List Timer
  nextTimer : Nat
  calls : List Call
  openPCs : List PC
deriving DecidableEq, Repr

/-- A world in which nothing has happened yet. -/
def World.init (now : Time) : World :=
  { now := now, timers := [], nextTimer := 0, calls := [], openPCs := [] }

/-- Appends a call to the record of calls. -/
def World.record (w : World) (c : Call) : World :=
  { w with calls := w.calls ++ [c] }

/-- A client on the heap together with the world around it. -/
structure Sys where
  w : World
  c : Client
deriving DecidableEq, Repr

/-- Modelled from the spec: `NewPeerConnection` belongs to the media engine, which is not
under `src/`. The specification says that the Media Connection allocates local transport
resources; a peer connection that was created counts as open until it is closed. -/
def World.opened (w : World) (pc : PC) : World :=
  { w with openPCs := w.openPCs ++ [pc] }

/-- Modelled from the spec: `webrtc.Conn.Stop` is not under `src/`. The specification says
that stopping the Media Connection releases its transport resources; the peer connection of
the connection leaves the open ones. -/
def World.closed (w : World) (pc : PC) : World :=
  { w with openPCs := w.openPCs.filter (fun p => p != pc) }

/-- Behaviour of everything `client.go` calls but does not define: a successful call returns
the value given here, a failing one the error. -/
structure Env where
  urlParse : String → Except GoError URL
  NewAPI : String → String → String → Except GoError API
  webrtcNewAPI : Except GoError Unit
  NewPeerConnection : Except GoError PC
  CreateCompleteOffer : Conn → List Media → Except GoError String
  ExchangeSDP : API → String → String → String → Except GoError (String × String × Time)
  SetAnswer : Conn → String → Option GoError
  ExtendStream : API → List Call → String → String → String → Except GoError (String × Time)
  connStart : Conn → Option GoError
  connStop : Conn → Option GoError

/-! ## `NewClient` -/

/-- The media list of `NewClient`: audio and video, both receive-only, and the `app` entry. -/
def medias : List Media :=
  [ { Kind := KindAudio, Direction := DirectionRecvonly },
    { Kind := KindVideo, Direction := DirectionRecvonly },
    { Kind := "app", Direction := "" } ]

/-- Function `NewClient(rawURL)`. The result pairs the returned `(*Client, error)` (a client
or an error, never both) with the world after the call. Each `match` is one
`if err != nil { return nil, err }` of the source. The offer is exchanged through the Nest
API client that `NewAPI` returned (line 75); the source comment above that line still reads
"Exchange SDP via Hass". -/
def NewClient (env : Env) (w : World) (rawURL : String) : Except GoError Client × World :=
  match env.urlParse rawURL with
  | .error err => (.error err, w)
  | .ok u =>
    let query := u.Query
    let cliendID := query.Get "client_id"
    let cliendSecret := query.Get "client_secret"
    let refreshToken := query.Get "refresh_token"
    let projectID := query.Get "project_id"
    let deviceID := query.Get "device_id"
    if cliendID = "" ∨ cliendSecret = "" ∨ refreshToken = "" ∨ projectID = "" ∨ deviceID = "" then
      (.error "nest: wrong query", w)
    else
      let w := w.record (.NewAPI cliendID cliendSecret refreshToken)
      match env.NewAPI cliendID cliendSecret refreshToken with
      | .error err => (.error err, w)
      | .ok nestAPI =>
        let w := w.record .webrtcNewAPI
        match env.webrtcNewAPI with
        | .error err => (.error err, w)
        | .ok _ =>
          let w := w.record .NewPeerConnection
          match env.NewPeerConnection with
          | .error err => (.error err, w)
          | .ok pc =>
            let w := w.opened pc
            let conn := NewConn pc
            let conn := { conn with Desc := "Nest" }
            let conn := { conn with Mode := Mode.ModeActiveProducer }
            let w := w.record (.CreateCompleteOffer medias)
            match env.CreateCompleteOffer conn medias with
            | .error err => (.error err, w)
            | .ok offer =>
              let w := w.record (.ExchangeSDP projectID deviceID offer)
              match env.ExchangeSDP nestAPI projectID deviceID offer with
              | .error err => (.error err, w)
              | .ok (answer, mediaSessionId, expiresAt) =>
                let w := w.record (.SetAnswer answer)
                match env.SetAnswer conn answer with
                | some err => (.error err, w)
                | none =>
                  (.ok { conn := conn, deviceId := deviceID, projectId := projectID,
                         mediaSessionId := mediaSessionId, streamExpiresAt := expiresAt,
                         nestApi := nestAPI, timer := none }, w)

/-! ## Timer runtime -/

/-- Function `time.AfterFunc(d, f)`: a new runtime timer is armed and its handle returned.
The runtime runs the callback once `d` has elapsed, and at once when `d` is not positive.
Instants are unbounded here, so the sum `now + d` is never cut off. -/
def AfterFunc (w : World) (d : Duration) : World × Nat :=
  let t : Timer := { id := w.nextTimer, d := d, when := ⟨w.now.ns + max d 0⟩ }
  (({ w with timers := w.timers ++ [t], nextTimer := w.nextTimer + 1 }).record (.AfterFunc d),
    t.id)

/-- Method `(*time.Timer).Stop` on a non-nil timer: the timer is taken out of the armed
timers; nothing changes when it has already fired or been stopped. -/
def timerStop (w : World) (id : Nat) : World :=
  ({ w with timers := w.timers.filter (fun t => t.id != id) }).record (.TimerStop id)

/-! ## Methods of `*Client` -/

/-- Method `Client.ExtendStream`. -/
def Client.ExtendStream (env : Env) (s : Sys) : Sys × Option GoError :=
  let res :=
    env.ExtendStream s.c.nestApi s.w.calls s.c.projectId s.c.deviceId s.c.mediaSessionId
  let w := s.w.record (.ExtendStream s.c.projectId s.c.deviceId s.c.mediaSessionId res)
  match res with
  | .error err => ({ s with w := w }, some err)
  | .ok (mediaSessionId, expiresAt) =>
    ({ w := w, c := { s.c with mediaSessionId := mediaSessionId, streamExpiresAt := expiresAt } },
      none)

/-- Method `Client.StartExtendStreamTimer`, the part that runs when it is called: the delay
is computed and the timer armed. The closure `ontimer` it hands to the runtime is `ontimer`
below. -/
def Client.StartExtendStreamTimer (s : Sys) : Sys :=
  let duration := timeUntil s.w.now (s.c.streamExpiresAt.Add (-30 * Second))
  let (w, t) := AfterFunc s.w duration
  { w := w, c := { s.c with timer := some t } }

/-- The closure `ontimer`: `c.ExtendStream()` with its result dropped, then
`c.StartExtendStreamTimer()`. -/
def ontimer (env : Env) (s : Sys) : Sys :=
  let (s, _) := Client.ExtendStream env s
  Client.StartExtendStreamTimer s

/-- Method `Client.Start`. -/
def Client.Start (env : Env) (s : Sys) : Sys × Option GoError :=
  let s := Client.StartExtendStreamTimer s
  ({ s with w := s.w.record .ConnStart }, env.connStart s.c.conn)

/-- Method `Client.Stop`. Calling `Stop` through a nil `*time.Timer` dereferences it and
panics before `c.conn.Stop()` is reached. -/
def Client.Stop (env : Env) (s : Sys) : Outcome (Sys × Option GoError) :=
  match s.c.timer with
  | none => .panicked "runtime error: invalid memory address or nil pointer dereference"
  | some t =>
    let w := timerStop s.w t
    let w := (w.closed s.c.conn.pc).record .ConnStop
    .returned ({ s with w := w }, env.connStop s.c.conn)

/-! ## Runs -/

/-- The runtime fires the armed timer `id`: it leaves the armed timers, the clock stands at
its `when` or later, and `ontimer` runs. Not enabled (`none`) when no such timer is armed.
The callback runs as one step. That is exact as long as a single timer is armed, which is
the case in every run with at most one `Start`: the next timer is only armed at the end of
the callback. With several timers armed at once (after a second `Start`) Go may run their
callbacks in parallel, and this step does not describe their interleaving. -/
def fire (env : Env) (s : Sys) (id : Nat) : Option Sys :=
  match s.w.timers.find? (fun t => t.id == id) with
  | none => none
  | some t =>
    some (ontimer env
      { s with w := { s.w with timers := s.w.timers.filter (fun u => u.id != id),
                               now := ⟨max s.w.now.ns t.when.ns⟩ } })

/-- What can happen to a constructed client: a call of `Start`, a call of `Stop`, the firing
of an armed timer, or time passing. -/
inductive Action where
  | start
  | stop
  | fire (id : Nat)
  | elapse (d : Nat)
deriving DecidableEq, Repr

/-- One action; `none` when the action is not enabled or panics. -/
def step (env : Env) (s : Sys) : Action → Option Sys
  | .start => some (Client.Start env s).1
  | .stop =>
    match Client.Stop env s with
    | .returned r => some r.1
    | .panicked _ => none
  | .fire id => fire env s id
  | .elapse d => some { s with w := { s.w with now := ⟨s.w.now.ns + d⟩ } }

/-- A sequence of actions, left to right. -/
def exec (env : Env) (s : Sys) : List Action → Option Sys
  | [] => some s
  | a :: as =>
    match step env s a with
    | none => none
    | some s1 => exec env s1 as

/-- The `ExtendStream` entries of a record of calls. -/
def extendCalls : List Call → List Call
  | [] => []
  | .ExtendStream p d m r :: cs => .ExtendStream p d m r :: extendCalls cs
  | _ :: cs => extendCalls cs

/-! ## Concrete collaborators used to evaluate the code -/

/-- A raw URL carrying all five parameters. -/
def scenarioRawURL : String :=
  "nest:?client_id=id&client_secret=secret&refresh_token=token&project_id=p1&device_id=d1"

/-- A raw URL without `device_id`. -/
def missingDeviceRawURL : String :=
  "nest:?client_id=id&client_secret=secret&refresh_token=token&project_id=p1"

/-- The query of `scenarioRawURL`: project `p1`, device `d1`. -/
def scenarioURL : URL :=
  ⟨⟨[("client_id", ["id"]), ("client_secret", ["secret"]), ("refresh_token", ["token"]),
     ("project_id", ["p1"]), ("device_id", ["d1"])]⟩⟩

/-- The query of `missingDeviceRawURL`. -/
def missingDeviceURL : URL :=
  ⟨⟨[("client_id", ["id"]), ("client_secret", ["secret"]), ("refresh_token", ["token"]),
     ("project_id", ["p1"])]⟩⟩

/-- Collaborators that all succeed: the exchange answers session `s1` expiring at 60 s, an
extension of `s1` answers `s2` expiring at 150 s, any other extension `s3` expiring at 240 s. -/
def scenarioEnv : Env where
  urlParse := fun raw =>
    if raw = scenarioRawURL then .ok scenarioURL
    else if raw = missingDeviceRawURL then .ok missingDeviceURL
    else .error "parse: invalid URL"
  NewAPI := fun _ _ _ => .ok ⟨0⟩
  webrtcNewAPI := .ok ()
  NewPeerConnection := .ok ⟨0⟩
  CreateCompleteOffer := fun _ _ => .ok "offer"
  ExchangeSDP := fun _ _ _ _ => .ok ("answer", "s1", ⟨60 * Second⟩)
  SetAnswer := fun _ _ => none
  ExtendStream := fun _ _ _ _ sid =>
    if sid = "s1" then .ok ("s2", ⟨150 * Second⟩) else .ok ("s3", ⟨240 * Second⟩)
  connStart := fun _ => none
  connStop := fun _ => none

/-- As `scenarioEnv`, with every extension failing. -/
def failingExtendEnv : Env :=
  { scenarioEnv with ExtendStream := fun _ _ _ _ _ => .error "transport error" }

/-- As `scenarioEnv`, with `CreateCompleteOffer` failing. -/
def failingOfferEnv : Env :=
  { scenarioEnv with CreateCompleteOffer := fun _ _ => .error "offer failed" }

/-- The client `NewClient` returns under `scenarioEnv` for `scenarioRawURL`. -/
def scenarioClient : Client :=
  { conn := { pc := ⟨0⟩, Desc := "Nest", Mode := Mode.ModeActiveProducer },
    projectId := "p1", deviceId := "d1", mediaSessionId := "s1",
    streamExpiresAt := ⟨60 * Second⟩, nestApi := ⟨0⟩, timer := none }

/-- The world after that call of `NewClient`, started from `World.init ⟨0⟩`. -/
def scenarioWorld : World :=
  { now := ⟨0⟩, timers := [], nextTimer := 0,
    calls := [.NewAPI "id" "secret" "token", .webrtcNewAPI, .NewPeerConnection,
              .CreateCompleteOffer medias, .ExchangeSDP "p1" "d1" "offer", .SetAnswer "answer"],
    openPCs := [⟨0⟩] }

/-- The freshly constructed client of the scenario: `Start` has not been called. -/
def scenarioSys : Sys := ⟨scenarioWorld, scenarioClient⟩

/-! ## Vocabulary of the properties -/

/-- The five query parameters `NewClient` reads. -/
def requiredKeys : List String :=
  ["client_id", "client_secret", "refresh_token", "project_id", "device_id"]

/-- The parameter is absent from the query, or its (first) value is empty. -/
def Values.absentOrEmpty (v : Values) (key : String) : Prop :=
  v.index key = [] ∨ (v.index key).head? = some ""

instance (v : Values) (key : String) : Decidable (v.absentOrEmpty key) := by
  unfold Values.absentOrEmpty
  infer_instance

/-- The connection `NewClient` builds around a new peer connection. -/
def nestConn (pc : PC) : Conn := { pc := pc, Desc := "Nest", Mode := Mode.ModeActiveProducer }

/-- The call of `NewAPI` that `NewClient` makes for a query. -/
def apiCall (q : Values) : Call :=
  .NewAPI (q.Get "client_id") (q.Get "client_secret") (q.Get "refresh_token")

/-- The call of `ExchangeSDP` that `NewClient` makes for a query and an offer. -/
def exchangeCall (q : Values) (offer : String) : Call :=
  .ExchangeSDP (q.Get "project_id") (q.Get "device_id") offer

/-- The delay `(streamExpiresAt - 30s) - now` as an exact integer, with no bound applied. -/
def exactDelay (s : Sys) : Int :=
  s.c.streamExpiresAt.ns - 30 * Second - s.w.now.ns

/-- A client whose expiry is Go's zero `time.Time` (1 January of year 1, UTC), read by a
clock that stands at 4 November 2026. -/
def zeroExpirySys : Sys :=
  ⟨{ scenarioWorld with now := ⟨1793750400000000000⟩ },
   { scenarioClient with streamExpiresAt := ⟨-62135596800000000000⟩ }⟩

/-- No timer has ever been armed for the client: the state `NewClient` leaves behind. -/
def Fresh (s : Sys) : Prop := s.w.timers = [] ∧ s.c.timer = none

/-- Exactly one timer is armed; it is the one the client holds and the last one created. -/
def Armed (s : Sys) : Prop :=
  ∃ t, s.w.timers = [t] ∧ s.c.timer = some t.id ∧ t.id + 1 = s.w.nextTimer

/-- No timer is armed, and the client holds the handle of a former one. -/
def Stopped (s : Sys) : Prop := s.w.timers = [] ∧ s.c.timer ≠ none

/-- The session id the client holds after the calls `cs`, when it held `cur` before them: each
successful extension replaces it by the id the API returned. -/
def sessionAfter (cur : String) : List Call → String
  | [] => cur
  | .ExtendStream _ _ _ (.ok (i, _)) :: cs => sessionAfter i cs
  | _ :: cs => sessionAfter cur cs

/-- Every `ExtendStream` call of the record passes project `pid`, device `did` and the current
session id, which is `cur` at first and, after a successful extension, the id that extension
returned (a failed extension leaves it as it is). Other calls are passed over. -/
def sessionChain (pid did : String) : String → List Call → Bool
  | _, [] => true
  | cur, .ExtendStream p d m res :: cs =>
    decide (p = pid) && decide (d = did) && decide (m = cur) &&
      sessionChain pid did (sessionAfter cur [.ExtendStream p d m res]) cs
  | cur, _ :: cs => sessionChain pid did cur cs

/-- The client holds project `pid` and device `did`, the calls made so far form a chain that
started with session `sid0`, and the client holds the session id at the end of that chain. -/
def ChainInv (pid did sid0 : String) (s : Sys) : Prop :=
  s.c.projectId = pid ∧ s.c.deviceId = did ∧
  sessionChain pid did sid0 s.w.calls = true ∧
  s.c.mediaSessionId = sessionAfter sid0 s.w.calls

/-- A run of `n` renewals: `Start`, then the timers numbered `0` to `n - 1` fire in turn. -/
def renewalRun (n : Nat) : List Action :=
  .start :: (List.range n).map .fire

/-! ## Basic facts -/

theorem Values.Get_eq_empty_iff (v : Values) (key : String) :
    v.Get key = "" ↔ v.absentOrEmpty key := by
  unfold Values.Get Values.absentOrEmpty
  cases h : v.index key with
  | nil => simp
  | cons x xs => simp

theorem extendCalls_append (xs ys : List Call) :
    extendCalls (xs ++ ys) = extendCalls xs ++ extendCalls ys := by
  induction xs with
  | nil => rfl
  | cons x xs ih => cases x <;> simp [extendCalls, ih]

theorem NewClient_scenario :
    NewClient scenarioEnv (World.init ⟨0⟩) scenarioRawURL = (.ok scenarioClient, scenarioWorld) := by
  decide

theorem NewClient_ok (env : Env) (w : World) (rawURL : String) (c : Client) (w' : World)
    (h : NewClient env w rawURL = (.ok c, w')) :
    ∃ u api pc offer answer sid exp,
      env.urlParse rawURL = .ok u ∧
      env.ExchangeSDP api (u.Query.Get "project_id") (u.Query.Get "device_id") offer
        = .ok (answer, sid, exp) ∧
      c = { conn := nestConn pc, projectId := u.Query.Get "project_id",
            deviceId := u.Query.Get "device_id", mediaSessionId := sid,
            streamExpiresAt := exp, nestApi := api, timer := none } ∧
      w' = { w with
        calls := w.calls ++ [apiCall u.Query, .webrtcNewAPI, .NewPeerConnection,
          .CreateCompleteOffer medias, exchangeCall u.Query offer, .SetAnswer answer],
        openPCs := w.openPCs ++ [pc] } := by
  simp only [NewClient] at h
  split at h
  · simp at h
  · next u hp =>
    split at h
    · simp at h
    · split at h
      · simp at h
      · next api ha =>
        split at h
        · simp at h
        · split at h
          · simp at h
          · next pc hpc =>
            split at h
            · simp at h
            · next offer ho =>
              split at h
              · simp at h
              · next answer sid exp hx =>
                split at h
                · simp at h
                · simp only [Prod.mk.injEq, Except.ok.injEq] at h
                  obtain ⟨rfl, rfl⟩ := h
                  exact ⟨u, api, pc, offer, answer, sid, exp, hp, hx, rfl,
                    by simp [World.record, World.opened, World.closed, apiCall, exchangeCall]⟩

theorem NewClient_fresh (env : Env) (now : Time) (rawURL : String) (c : Client) (w1 : World)
    (h : NewClient env (World.init now) rawURL = (.ok c, w1)) :
    Fresh ⟨w1, c⟩ ∧ w1.nextTimer = 0 ∧ extendCalls w1.calls = [] := by
  obtain ⟨u, api, pc, offer, answer, sid, exp, -, -, rfl, rfl⟩ := NewClient_ok env _ _ _ _ h
  exact ⟨⟨rfl, rfl⟩, rfl, rfl⟩

/-! ## Construction -/

/-- C1: when the raw URL parses and one of the five query parameters is absent or empty,
`NewClient` returns the error `nest: wrong query`, no client, and a world in which no
collaborator has been called (the world is the one it started from). When all five are
present and non-empty the validation passes: `NewAPI` is the next call made, with the three
credentials read from the query. -/
theorem NewClient_validates_query (env : Env) (w : World) (rawURL : String) (u : URL)
    (hparse : env.urlParse rawURL = .ok u) :
    ((∃ key ∈ requiredKeys, u.Query.absentOrEmpty key) →
        NewClient env w rawURL = (.error "nest: wrong query", w)) ∧
    ((∀ key ∈ requiredKeys, ¬ u.Query.absentOrEmpty key) →
        ∃ rest, (NewClient env w rawURL).2.calls =
          w.calls ++ Call.NewAPI (u.Query.Get "client_id") (u.Query.Get "client_secret")
            (u.Query.Get "refresh_token") :: rest) := by
  constructor
  · intro hmiss
    have hcond : u.Query.Get "client_id" = "" ∨ u.Query.Get "client_secret" = "" ∨
        u.Query.Get "refresh_token" = "" ∨ u.Query.Get "project_id" = "" ∨
        u.Query.Get "device_id" = "" := by
      simp only [Values.Get_eq_empty_iff]
      simpa [requiredKeys] using hmiss
    simp only [NewClient, hparse]
    rw [if_pos hcond]
  · intro hall
    have hcond : ¬ (u.Query.Get "client_id" = "" ∨ u.Query.Get "client_secret" = "" ∨
        u.Query.Get "refresh_token" = "" ∨ u.Query.Get "project_id" = "" ∨
        u.Query.Get "device_id" = "") := by
      simp only [Values.Get_eq_empty_iff]
      simpa [requiredKeys] using hall
    simp only [NewClient, hparse]
    rw [if_neg hcond]
    repeat' split
    all_goals
      simp only [World.record, World.opened, World.closed, List.append_assoc, List.singleton_append, List.cons_append,
        List.nil_append]
      exact ⟨_, rfl⟩

/-- Witness of C1, both directions, on the scenario collaborators. -/
theorem NewClient_validates_query_witness :
    NewClient scenarioEnv (World.init ⟨0⟩) missingDeviceRawURL =
        (.error "nest: wrong query", World.init ⟨0⟩) ∧
    ∃ rest, (NewClient scenarioEnv (World.init ⟨0⟩) scenarioRawURL).2.calls =
        [] ++ Call.NewAPI "id" "secret" "token" :: rest :=
  ⟨(NewClient_validates_query scenarioEnv (World.init ⟨0⟩) missingDeviceRawURL missingDeviceURL
      (by decide)).1 ⟨"device_id", by decide, Or.inl (by decide)⟩,
   (NewClient_validates_query scenarioEnv (World.init ⟨0⟩) scenarioRawURL scenarioURL
      (by decide)).2 (by decide)⟩

/-- Every error return of `NewClient` is the failure of one of its eight steps, with the
world that step leaves behind. -/
theorem NewClient_error_cases (env : Env) (w : World) (rawURL : String) (e : GoError)
    (w' : World)
    (h : NewClient env w rawURL = (.error e, w')) :
    (∃ new, w'.calls = w.calls ++ new ∧ Call.ConnStart ∉ new ∧ Call.ConnStop ∉ new) ∧
    ((env.urlParse rawURL = .error e ∧ w' = w) ∨
    ∃ u, env.urlParse rawURL = .ok u ∧
      (((∃ key ∈ requiredKeys, u.Query.absentOrEmpty key) ∧ e = "nest: wrong query" ∧ w' = w) ∨
       ((∀ key ∈ requiredKeys, ¬ u.Query.absentOrEmpty key) ∧
        ((env.NewAPI (u.Query.Get "client_id") (u.Query.Get "client_secret")
              (u.Query.Get "refresh_token") = .error e ∧
            w' = { w with calls := w.calls ++ [apiCall u.Query] }) ∨
         ∃ api, env.NewAPI (u.Query.Get "client_id") (u.Query.Get "client_secret")
              (u.Query.Get "refresh_token") = .ok api ∧
           ((env.webrtcNewAPI = .error e ∧
              w' = { w with calls := w.calls ++ [apiCall u.Query, .webrtcNewAPI] }) ∨
            (env.NewPeerConnection = .error e ∧
              w' = { w with calls := w.calls ++
                [apiCall u.Query, .webrtcNewAPI, .NewPeerConnection] }) ∨
            ∃ pc, env.NewPeerConnection = .ok pc ∧
              ((env.CreateCompleteOffer (nestConn pc) medias = .error e ∧
                 w' = { w with
                   calls := w.calls ++ [apiCall u.Query, .webrtcNewAPI, .NewPeerConnection,
                     .CreateCompleteOffer medias],
                   openPCs := w.openPCs ++ [pc] }) ∨
               ∃ offer, env.CreateCompleteOffer (nestConn pc) medias = .ok offer ∧
                 ((env.ExchangeSDP api (u.Query.Get "project_id") (u.Query.Get "device_id")
                      offer = .error e ∧
                    w' = { w with
                      calls := w.calls ++ [apiCall u.Query, .webrtcNewAPI, .NewPeerConnection,
                        .CreateCompleteOffer medias, exchangeCall u.Query offer],
                      openPCs := w.openPCs ++ [pc] }) ∨
                  ∃ answer sid exp,
                    env.ExchangeSDP api (u.Query.Get "project_id") (u.Query.Get "device_id")
                      offer = .ok (answer, sid, exp) ∧
                    env.SetAnswer (nestConn pc) answer = some e ∧
                    w' = { w with
                      calls := w.calls ++ [apiCall u.Query, .webrtcNewAPI, .NewPeerConnection,
                        .CreateCompleteOffer medias, exchangeCall u.Query offer,
                        .SetAnswer answer],
                      openPCs := w.openPCs ++ [pc] }))))))) := by
  refine (and_iff_right_of_imp ?_).2 ?_
  · intro key
    rcases key with ⟨-, rfl⟩ | ⟨u, -, ⟨-, -, rfl⟩ | ⟨-, ⟨-, rfl⟩ | ⟨api, -, ⟨-, rfl⟩ | ⟨-, rfl⟩ |
      ⟨pc, -, ⟨-, rfl⟩ | ⟨offer, -, ⟨-, rfl⟩ | ⟨answer, sid, exp, -, -, rfl⟩⟩⟩⟩⟩⟩
    all_goals
      first
        | (refine ⟨[], ?_, ?_, ?_⟩ <;> simp <;> done)
        | (refine ⟨_, rfl, ?_, ?_⟩ <;> simp [apiCall, exchangeCall])
  have hq : ∀ u : URL,
      (u.Query.Get "client_id" = "" ∨ u.Query.Get "client_secret" = "" ∨
        u.Query.Get "refresh_token" = "" ∨ u.Query.Get "project_id" = "" ∨
        u.Query.Get "device_id" = "") ↔ ∃ key ∈ requiredKeys, u.Query.absentOrEmpty key := by
    intro u
    simp [Values.Get_eq_empty_iff, requiredKeys]
  simp only [NewClient] at h
  split at h
  · next err hp =>
    simp only [Prod.mk.injEq, Except.error.injEq] at h
    obtain ⟨rfl, rfl⟩ := h
    exact Or.inl ⟨hp, rfl⟩
  · next u hp =>
    refine Or.inr ⟨u, hp, ?_⟩
    split at h
    · next hc =>
      simp only [Prod.mk.injEq, Except.error.injEq] at h
      obtain ⟨rfl, rfl⟩ := h
      exact Or.inl ⟨(hq u).1 hc, rfl, rfl⟩
    · next hc =>
      refine Or.inr ⟨fun key hk hkey => hc ((hq u).2 ⟨key, hk, hkey⟩), ?_⟩
      split at h
      · next err ha =>
        simp only [Prod.mk.injEq, Except.error.injEq] at h
        obtain ⟨rfl, rfl⟩ := h
        exact Or.inl ⟨ha, rfl⟩
      · next api ha =>
        refine Or.inr ⟨api, ha, ?_⟩
        split at h
        · next err hw =>
          simp only [Prod.mk.injEq, Except.error.injEq] at h
          obtain ⟨rfl, rfl⟩ := h
          exact Or.inl ⟨hw, by simp [World.record, World.opened, World.closed, apiCall]⟩
        · next r hw =>
          split at h
          · next err hpc =>
            simp only [Prod.mk.injEq, Except.error.injEq] at h
            obtain ⟨rfl, rfl⟩ := h
            exact Or.inr (Or.inl ⟨hpc, by simp [World.record, World.opened, World.closed, apiCall]⟩)
          · next pc hpc =>
            refine Or.inr (Or.inr ⟨pc, hpc, ?_⟩)
            split at h
            · next err ho =>
              simp only [Prod.mk.injEq, Except.error.injEq] at h
              obtain ⟨rfl, rfl⟩ := h
              exact Or.inl ⟨ho, by simp [World.record, World.opened, World.closed, apiCall]⟩
            · next offer ho =>
              refine Or.inr ⟨offer, ho, ?_⟩
              split at h
              · next err hx =>
                simp only [Prod.mk.injEq, Except.error.injEq] at h
                obtain ⟨rfl, rfl⟩ := h
                exact Or.inl ⟨hx, by simp [World.record, World.opened, World.closed, apiCall, exchangeCall]⟩
              · next answer sid exp hx =>
                refine Or.inr ⟨answer, sid, exp, hx, ?_⟩
                split at h
                · next err hs =>
                  simp only [Prod.mk.injEq, Except.error.injEq] at h
                  obtain ⟨rfl, rfl⟩ := h
                  exact ⟨hs, by simp [World.record, World.opened, World.closed, apiCall, exchangeCall]⟩
                · simp at h

/-- C10 (amended): when a step of `NewClient` fails (URL parse, validation, `NewAPI`,
`webrtc.NewAPI`, `NewPeerConnection`, `CreateCompleteOffer`, `ExchangeSDP`, `SetAnswer`, the
steps before it having succeeded), `NewClient` returns that step's error and no client, and
the world is the initial one with exactly the calls up to and including the failing step: no
later step runs and the connection is neither started nor stopped. When `CreateCompleteOffer`,
`ExchangeSDP` or `SetAnswer` fails, the peer connection created before stays among the open
ones: `NewClient` does not close it. No error return starts or stops the connection or
touches a timer. -/
theorem NewClient_failure (env : Env) (w : World) (rawURL : String) :
    (∀ e, env.urlParse rawURL = .error e → NewClient env w rawURL = (.error e, w)) ∧
    (∀ u, env.urlParse rawURL = .ok u →
      ((∃ key ∈ requiredKeys, u.Query.absentOrEmpty key) →
        NewClient env w rawURL = (.error "nest: wrong query", w)) ∧
      ((∀ key ∈ requiredKeys, ¬ u.Query.absentOrEmpty key) →
        (∀ e, env.NewAPI (u.Query.Get "client_id") (u.Query.Get "client_secret")
              (u.Query.Get "refresh_token") = .error e →
          NewClient env w rawURL =
            (.error e, { w with calls := w.calls ++ [apiCall u.Query] })) ∧
        (∀ api, env.NewAPI (u.Query.Get "client_id") (u.Query.Get "client_secret")
              (u.Query.Get "refresh_token") = .ok api →
          (∀ e, env.webrtcNewAPI = .error e →
            NewClient env w rawURL =
              (.error e, { w with calls := w.calls ++ [apiCall u.Query, .webrtcNewAPI] })) ∧
          (∀ r, env.webrtcNewAPI = .ok r →
            (∀ e, env.NewPeerConnection = .error e →
              NewClient env w rawURL =
                (.error e, { w with calls := w.calls ++
                  [apiCall u.Query, .webrtcNewAPI, .NewPeerConnection] })) ∧
            (∀ pc, env.NewPeerConnection = .ok pc →
              (∀ e, env.CreateCompleteOffer (nestConn pc) medias = .error e →
                NewClient env w rawURL =
                  (.error e, { w with
                    calls := w.calls ++ [apiCall u.Query, .webrtcNewAPI, .NewPeerConnection,
                      .CreateCompleteOffer medias],
                    openPCs := w.openPCs ++ [pc] })) ∧
              (∀ offer, env.CreateCompleteOffer (nestConn pc) medias = .ok offer →
                (∀ e, env.ExchangeSDP api (u.Query.Get "project_id")
                      (u.Query.Get "device_id") offer = .error e →
                  NewClient env w rawURL =
                    (.error e, { w with
                      calls := w.calls ++ [apiCall u.Query, .webrtcNewAPI, .NewPeerConnection,
                        .CreateCompleteOffer medias, exchangeCall u.Query offer],
                      openPCs := w.openPCs ++ [pc] })) ∧
                (∀ answer sid exp e,
                  env.ExchangeSDP api (u.Query.Get "project_id") (u.Query.Get "device_id")
                    offer = .ok (answer, sid, exp) →
                  env.SetAnswer (nestConn pc) answer = some e →
                  NewClient env w rawURL =
                    (.error e, { w with
                      calls := w.calls ++ [apiCall u.Query, .webrtcNewAPI, .NewPeerConnection,
                        .CreateCompleteOffer medias, exchangeCall u.Query offer,
                        .SetAnswer answer],
                      openPCs := w.openPCs ++ [pc] })))))))) ∧
    (∀ e w', NewClient env w rawURL = (.error e, w') →
      ∃ new, w'.calls = w.calls ++ new ∧ Call.ConnStart ∉ new ∧ Call.ConnStop ∉ new ∧
        w'.timers = w.timers) := by
  have hq : ∀ u : URL,
      (u.Query.Get "client_id" = "" ∨ u.Query.Get "client_secret" = "" ∨
        u.Query.Get "refresh_token" = "" ∨ u.Query.Get "project_id" = "" ∨
        u.Query.Get "device_id" = "") ↔ ∃ key ∈ requiredKeys, u.Query.absentOrEmpty key := by
    intro u
    simp [Values.Get_eq_empty_iff, requiredKeys]
  refine ⟨?_, ?_, ?_⟩
  · intro e hp
    simp only [NewClient, hp]
  · intro u hp
    refine ⟨fun hmiss => ?_, fun hall => ?_⟩
    · simp only [NewClient, hp]
      rw [if_pos ((hq u).2 hmiss)]
    · have hc : ¬ (u.Query.Get "client_id" = "" ∨ u.Query.Get "client_secret" = "" ∨
          u.Query.Get "refresh_token" = "" ∨ u.Query.Get "project_id" = "" ∨
          u.Query.Get "device_id" = "") := fun h => by
        obtain ⟨key, hk, hkey⟩ := (hq u).1 h
        exact hall key hk hkey
      have hstart : NewClient env w rawURL =
          (match env.NewAPI (u.Query.Get "client_id") (u.Query.Get "client_secret")
              (u.Query.Get "refresh_token") with
            | .error err => (.error err, w.record (apiCall u.Query))
            | .ok nestAPI =>
              match env.webrtcNewAPI with
              | .error err => (.error err, (w.record (apiCall u.Query)).record .webrtcNewAPI)
              | .ok _ =>
                match env.NewPeerConnection with
                | .error err =>
                  (.error err, ((w.record (apiCall u.Query)).record .webrtcNewAPI).record
                    .NewPeerConnection)
                | .ok pc =>
                  match env.CreateCompleteOffer (nestConn pc) medias with
                  | .error err =>
                    (.error err, (((((w.record (apiCall u.Query)).record .webrtcNewAPI).record
                      .NewPeerConnection).opened pc).record (.CreateCompleteOffer medias)))
                  | .ok offer =>
                    match env.ExchangeSDP nestAPI (u.Query.Get "project_id")
                        (u.Query.Get "device_id") offer with
                    | .error err =>
                      (.error err, ((((((w.record (apiCall u.Query)).record
                        .webrtcNewAPI).record .NewPeerConnection).opened pc).record
                        (.CreateCompleteOffer medias)).record (exchangeCall u.Query offer)))
                    | .ok (answer, mediaSessionId, expiresAt) =>
                      match env.SetAnswer (nestConn pc) answer with
                      | some err =>
                        (.error err, (((((((w.record (apiCall u.Query)).record
                          .webrtcNewAPI).record .NewPeerConnection).opened pc).record
                          (.CreateCompleteOffer medias)).record
                          (exchangeCall u.Query offer)).record (.SetAnswer answer)))
                      | none =>
                        (.ok { conn := nestConn pc, deviceId := u.Query.Get "device_id",
                               projectId := u.Query.Get "project_id",
                               mediaSessionId := mediaSessionId, streamExpiresAt := expiresAt,
                               nestApi := nestAPI, timer := none },
                          (((((((w.record (apiCall u.Query)).record
                          .webrtcNewAPI).record .NewPeerConnection).opened pc).record
                          (.CreateCompleteOffer medias)).record
                          (exchangeCall u.Query offer)).record (.SetAnswer answer)))) := by
        simp only [NewClient, hp]
        rw [if_neg hc]
        rfl
      rw [hstart]
      refine ⟨fun e ha => ?_, fun api ha => ⟨fun e hw => ?_, fun r hw =>
        ⟨fun e hpc => ?_, fun pc hpc => ⟨fun e ho => ?_, fun offer ho =>
          ⟨fun e hx => ?_, fun answer sid exp e hx hs => ?_⟩⟩⟩⟩⟩
      · simp [ha, World.record]
      · simp [ha, hw, World.record]
      · simp [ha, hw, hpc, World.record]
      · simp [ha, hw, hpc, ho, World.record, World.opened]
      · simp [ha, hw, hpc, ho, hx, World.record, World.opened]
      · simp [ha, hw, hpc, ho, hx, hs, World.record, World.opened]
  · intro e w' h
    rcases (NewClient_error_cases env w rawURL e w' h).2 with
      ⟨-, rfl⟩ | ⟨u, -, ⟨-, -, rfl⟩ | ⟨-, ⟨-, rfl⟩ | ⟨api, -, ⟨-, rfl⟩ | ⟨-, rfl⟩ |
      ⟨pc, -, ⟨-, rfl⟩ | ⟨offer, -, ⟨-, rfl⟩ | ⟨answer, sid, exp, -, -, rfl⟩⟩⟩⟩⟩⟩
    all_goals
      first
        | (refine ⟨[], ?_, ?_, ?_, rfl⟩ <;> simp <;> done)
        | (refine ⟨_, rfl, ?_, ?_, rfl⟩ <;> simp [apiCall, exchangeCall])

/-- Witness of C10 (amended): `CreateCompleteOffer` fails after the first three steps
succeeded. -/
theorem NewClient_failure_witness :
    NewClient failingOfferEnv (World.init ⟨0⟩) scenarioRawURL =
      (.error "offer failed",
        { World.init ⟨0⟩ with
          calls := [] ++ [apiCall scenarioURL.Query, .webrtcNewAPI, .NewPeerConnection,
            .CreateCompleteOffer medias],
          openPCs := [] ++ [⟨0⟩] }) :=
  by
  have h := (NewClient_failure failingOfferEnv (World.init ⟨0⟩) scenarioRawURL).2.1
    scenarioURL (by decide)
  have h1 := h.2 (by decide)
  have h2 := h1.2 ⟨0⟩ (by decide)
  have h3 := h2.2 () (by decide)
  have h4 := h3.2 ⟨0⟩ (by decide)
  exact h4.1 "offer failed" (by decide)

/-- C10 (counterexample): `CreateCompleteOffer` fails after the peer connection was created;
`NewClient` returns the error and no client, yet the peer connection is still open and no
call that would close it was made. -/
theorem NewClient_offer_failure_leaves_pc_open :
    (NewClient failingOfferEnv (World.init ⟨0⟩) scenarioRawURL).1 = .error "offer failed" ∧
    (NewClient failingOfferEnv (World.init ⟨0⟩) scenarioRawURL).2.openPCs = [⟨0⟩] ∧
    (NewClient failingOfferEnv (World.init ⟨0⟩) scenarioRawURL).2.calls =
      [.NewAPI "id" "secret" "token", .webrtcNewAPI, .NewPeerConnection,
       .CreateCompleteOffer medias] := by
  decide

/-! ## Renewal -/

/-- C2: when the API's extend operation returns an error, `ExtendStream` returns that error
and the client is exactly what it was (session id, expiry and every other field); the world
only gains the record of the call. -/
theorem ExtendStream_failure_keeps_client (env : Env) (s : Sys) (e : GoError)
    (h : env.ExtendStream s.c.nestApi s.w.calls s.c.projectId s.c.deviceId s.c.mediaSessionId
      = .error e) :
    (Client.ExtendStream env s).2 = some e ∧
    (Client.ExtendStream env s).1.c = s.c ∧
    (Client.ExtendStream env s).1.w =
      s.w.record (.ExtendStream s.c.projectId s.c.deviceId s.c.mediaSessionId (.error e)) := by
  simp [Client.ExtendStream, h]

/-- Witness of C2: the failing API of `failingExtendEnv` on the scenario client. -/
theorem ExtendStream_failure_keeps_client_witness :
    (Client.ExtendStream failingExtendEnv scenarioSys).2 = some "transport error" ∧
    (Client.ExtendStream failingExtendEnv scenarioSys).1.c = scenarioClient ∧
    (Client.ExtendStream failingExtendEnv scenarioSys).1.w =
      scenarioWorld.record (.ExtendStream "p1" "d1" "s1" (.error "transport error")) :=
  ExtendStream_failure_keeps_client failingExtendEnv scenarioSys "transport error" (by decide)

/-- C4: when the API's extend operation succeeds with `(id', exp')`, `ExtendStream` returns no
error and the client is the previous one with exactly `mediaSessionId` replaced by `id'` and
`streamExpiresAt` by `exp'`: project, device, connection, API client (and timer handle) are
unchanged. The world is the previous one with one more recorded call, the extension itself:
no call on the media connection is made, no peer connection opened or closed, no timer
touched. -/
theorem ExtendStream_success_replaces_session (env : Env) (s : Sys) (id' : String) (exp' : Time)
    (h : env.ExtendStream s.c.nestApi s.w.calls s.c.projectId s.c.deviceId s.c.mediaSessionId
      = .ok (id', exp')) :
    (Client.ExtendStream env s).2 = none ∧
    (Client.ExtendStream env s).1.c =
      { s.c with mediaSessionId := id', streamExpiresAt := exp' } ∧
    (Client.ExtendStream env s).1.c.projectId = s.c.projectId ∧
    (Client.ExtendStream env s).1.c.deviceId = s.c.deviceId ∧
    (Client.ExtendStream env s).1.c.conn = s.c.conn ∧
    (Client.ExtendStream env s).1.c.nestApi = s.c.nestApi ∧
    (Client.ExtendStream env s).1.c.timer = s.c.timer ∧
    (Client.ExtendStream env s).1.w =
      s.w.record (.ExtendStream s.c.projectId s.c.deviceId s.c.mediaSessionId
        (.ok (id', exp'))) ∧
    (Client.ExtendStream env s).1.w.calls = s.w.calls ++
      [.ExtendStream s.c.projectId s.c.deviceId s.c.mediaSessionId (.ok (id', exp'))] ∧
    (Client.ExtendStream env s).1.w.openPCs = s.w.openPCs ∧
    (Client.ExtendStream env s).1.w.timers = s.w.timers := by
  simp [Client.ExtendStream, h, World.record]

/-- Witness of C4: the scenario API renews `s1` into `s2`, expiring at 150 s. -/
theorem ExtendStream_success_replaces_session_witness :
    (Client.ExtendStream scenarioEnv scenarioSys).1.c =
      { scenarioClient with mediaSessionId := "s2", streamExpiresAt := ⟨150 * Second⟩ } ∧
    (Client.ExtendStream scenarioEnv scenarioSys).1.w.calls = scenarioWorld.calls ++
      [.ExtendStream "p1" "d1" "s1" (.ok ("s2", ⟨150 * Second⟩))] :=
  ⟨(ExtendStream_success_replaces_session scenarioEnv scenarioSys "s2" ⟨150 * Second⟩
      (by decide)).2.1,
   (ExtendStream_success_replaces_session scenarioEnv scenarioSys "s2" ⟨150 * Second⟩
      (by decide)).2.2.2.2.2.2.2.2.1⟩

/-! ## Arming the timer -/

/-- The timer `StartExtendStreamTimer` arms, spelled out. -/
theorem StartExtendStreamTimer_eq (s : Sys) :
    Client.StartExtendStreamTimer s =
      { w := { s.w with
                timers := s.w.timers ++
                  [{ id := s.w.nextTimer,
                     d := timeUntil s.w.now (s.c.streamExpiresAt.Add (-30 * Second)),
                     when := ⟨s.w.now.ns +
                       max (timeUntil s.w.now (s.c.streamExpiresAt.Add (-30 * Second))) 0⟩ }],
                nextTimer := s.w.nextTimer + 1,
                calls := s.w.calls ++
                  [.AfterFunc (timeUntil s.w.now (s.c.streamExpiresAt.Add (-30 * Second)))] },
        c := { s.c with timer := some s.w.nextTimer } } := by
  rfl

/-- C5 (counterexample): the expiry is Go's zero time and the clock stands in 2026. The exact
difference `(streamExpiresAt - 30s) - now` is about -2025 years, below the smallest
`Duration`; the timer is armed with the smallest `Duration` instead (it is still armed, and
due at once). -/
theorem StartExtendStreamTimer_delay_saturates :
    (Client.StartExtendStreamTimer zeroExpirySys).w.timers =
      [{ id := 0, d := minDuration, when := zeroExpirySys.w.now }] ∧
    exactDelay zeroExpirySys = -63929347230000000000 ∧
    minDuration ≠ exactDelay zeroExpirySys := by
  decide

/-- C5 (amended): for every expiry and every clock reading `StartExtendStreamTimer` returns
normally, arms exactly one new timer and stores its handle in the client. The delay it passes
is `(streamExpiresAt - 30s) - now` whenever that difference fits a `Duration` (an `int64` of
nanoseconds), and the smallest resp. largest `Duration` when the difference lies below resp.
above that range. With a positive fitting delay the timer is due at `streamExpiresAt - 30s`;
with a zero or negative delay it is armed all the same and due at once. The same holds for
the timer that the callback arms after a successful renewal, with the new expiry. -/
theorem StartExtendStreamTimer_arms (env : Env) (s : Sys) :
    (∃ t, (Client.StartExtendStreamTimer s).w.timers = s.w.timers ++ [t] ∧
      (Client.StartExtendStreamTimer s).c = { s.c with timer := some t.id } ∧
      t.id = s.w.nextTimer ∧
      (minDuration ≤ exactDelay s → exactDelay s ≤ maxDuration → t.d = exactDelay s) ∧
      (exactDelay s < minDuration → t.d = minDuration) ∧
      (maxDuration < exactDelay s → t.d = maxDuration) ∧
      (0 ≤ exactDelay s → exactDelay s ≤ maxDuration →
        t.when = s.c.streamExpiresAt.Add (-30 * Second)) ∧
      (t.d ≤ 0 → t.when = s.w.now)) ∧
    (∀ id' exp',
      env.ExtendStream s.c.nestApi s.w.calls s.c.projectId s.c.deviceId s.c.mediaSessionId
        = .ok (id', exp') →
      ∃ t, (ontimer env s).w.timers = s.w.timers ++ [t] ∧
        (ontimer env s).c.timer = some t.id ∧
        (ontimer env s).c.streamExpiresAt = exp' ∧
        (minDuration ≤ exp'.ns - 30 * Second - s.w.now.ns →
          exp'.ns - 30 * Second - s.w.now.ns ≤ maxDuration →
          t.d = exp'.ns - 30 * Second - s.w.now.ns) ∧
        (0 ≤ exp'.ns - 30 * Second - s.w.now.ns →
          exp'.ns - 30 * Second - s.w.now.ns ≤ maxDuration →
          t.when = exp'.Add (-30 * Second)) ∧
        (t.d ≤ 0 → t.when = s.w.now)) := by
  have hmin : minDuration < 0 := by decide
  have hmax : 0 < maxDuration := by decide
  have key : ∀ (now E : Time),
      (minDuration ≤ E.ns - 30 * Second - now.ns → E.ns - 30 * Second - now.ns ≤ maxDuration →
        timeUntil now (E.Add (-30 * Second)) = E.ns - 30 * Second - now.ns) ∧
      (E.ns - 30 * Second - now.ns < minDuration →
        timeUntil now (E.Add (-30 * Second)) = minDuration) ∧
      (maxDuration < E.ns - 30 * Second - now.ns →
        timeUntil now (E.Add (-30 * Second)) = maxDuration) := by
    intro now E
    have hx : (E.Add (-30 * Second)).ns - now.ns = E.ns - 30 * Second - now.ns := by
      simp only [Time.Add]
      ring
    unfold timeUntil Time.Sub
    rw [hx]
    refine ⟨fun h1 h2 => ?_, fun h => ?_, fun h => ?_⟩
    · rw [if_neg (not_lt.mpr h1), if_neg (not_lt.mpr h2)]
    · rw [if_pos h]
    · rw [if_neg (not_lt.mpr (le_of_lt (lt_trans (lt_trans hmin hmax) h))), if_pos h]
  have arm : ∀ (now E : Time),
      (0 ≤ E.ns - 30 * Second - now.ns → E.ns - 30 * Second - now.ns ≤ maxDuration →
        (⟨now.ns + max (timeUntil now (E.Add (-30 * Second))) 0⟩ : Time)
          = E.Add (-30 * Second)) ∧
      (timeUntil now (E.Add (-30 * Second)) ≤ 0 →
        (⟨now.ns + max (timeUntil now (E.Add (-30 * Second))) 0⟩ : Time) = now) := by
    intro now E
    refine ⟨fun h1 h2 => ?_, fun h => ?_⟩
    · rw [(key now E).1 (le_trans (le_of_lt hmin) h1) h2, max_eq_left h1]
      simp only [Time.Add, Time.mk.injEq]
      ring
    · rw [max_eq_right h]
      simp
  constructor
  · refine ⟨_, by rw [StartExtendStreamTimer_eq], by rw [StartExtendStreamTimer_eq], rfl,
      ?_, ?_, ?_, ?_, ?_⟩
    · exact (key s.w.now s.c.streamExpiresAt).1
    · exact (key s.w.now s.c.streamExpiresAt).2.1
    · exact (key s.w.now s.c.streamExpiresAt).2.2
    · exact (arm s.w.now s.c.streamExpiresAt).1
    · exact (arm s.w.now s.c.streamExpiresAt).2
  · intro id' exp' h
    have hs : ontimer env s = Client.StartExtendStreamTimer
        { w := s.w.record
            (.ExtendStream s.c.projectId s.c.deviceId s.c.mediaSessionId (.ok (id', exp'))),
          c := { s.c with mediaSessionId := id', streamExpiresAt := exp' } } := by
      simp [ontimer, Client.ExtendStream, h]
    rw [hs, StartExtendStreamTimer_eq]
    refine ⟨_, rfl, rfl, rfl, ?_, ?_, ?_⟩
    · exact (key s.w.now exp').1
    · exact (arm s.w.now exp').1
    · exact (arm s.w.now exp').2

/-- Witness of C5 (amended), on the scenario: after the successful renewal of `s1` (new expiry
150 s, clock at 30 s) the callback arms a timer with delay 90 s, due at 120 s. -/
theorem StartExtendStreamTimer_arms_witness :
    ∃ t, (ontimer scenarioEnv { scenarioSys with w := { scenarioWorld with now := ⟨30 * Second⟩ } }
        ).w.timers = [] ++ [t] ∧ t.d = 90 * Second ∧ t.when = ⟨120 * Second⟩ := by
  obtain ⟨t, h1, -, -, h2, h3, -⟩ :=
    (StartExtendStreamTimer_arms scenarioEnv
      { scenarioSys with w := { scenarioWorld with now := ⟨30 * Second⟩ } }).2
      "s2" ⟨150 * Second⟩ (by decide)
  exact ⟨t, h1, h2 (by decide) (by decide), h3 (by decide) (by decide)⟩

/-! ## The renewal callback -/

/-- The callback, spelled out: the call is recorded, the session replaced on success only,
and a timer armed in either case. -/
theorem ontimer_eq (env : Env) (s : Sys) :
    ontimer env s = Client.StartExtendStreamTimer
      { w := s.w.record (.ExtendStream s.c.projectId s.c.deviceId s.c.mediaSessionId
              (env.ExtendStream s.c.nestApi s.w.calls s.c.projectId s.c.deviceId
                s.c.mediaSessionId)),
        c := match env.ExtendStream s.c.nestApi s.w.calls s.c.projectId s.c.deviceId
                s.c.mediaSessionId with
          | .error _ => s.c
          | .ok (i, x) => { s.c with mediaSessionId := i, streamExpiresAt := x } } := by
  unfold ontimer Client.ExtendStream
  cases env.ExtendStream s.c.nestApi s.w.calls s.c.projectId s.c.deviceId
    s.c.mediaSessionId with
  | error e => rfl
  | ok r => rfl

theorem ontimer_timers (env : Env) (s : Sys) :
    ∃ t, (ontimer env s).w.timers = s.w.timers ++ [t] ∧ t.id = s.w.nextTimer := by
  rw [ontimer_eq, StartExtendStreamTimer_eq]
  exact ⟨_, rfl, rfl⟩

theorem ontimer_timer (env : Env) (s : Sys) :
    (ontimer env s).c.timer = some s.w.nextTimer := by
  rw [ontimer_eq, StartExtendStreamTimer_eq]
  rfl

theorem ontimer_nextTimer (env : Env) (s : Sys) :
    (ontimer env s).w.nextTimer = s.w.nextTimer + 1 := by
  rw [ontimer_eq, StartExtendStreamTimer_eq]
  rfl

theorem ontimer_extendCalls (env : Env) (s : Sys) :
    extendCalls (ontimer env s).w.calls = extendCalls s.w.calls ++
      [.ExtendStream s.c.projectId s.c.deviceId s.c.mediaSessionId
        (env.ExtendStream s.c.nestApi s.w.calls s.c.projectId s.c.deviceId
          s.c.mediaSessionId)] := by
  rw [ontimer_eq, StartExtendStreamTimer_eq]
  simp [World.record, World.opened, World.closed, extendCalls_append, extendCalls]

theorem ontimer_ids (env : Env) (s : Sys) :
    (ontimer env s).c.projectId = s.c.projectId ∧ (ontimer env s).c.deviceId = s.c.deviceId ∧
    (ontimer env s).c.mediaSessionId =
      (match env.ExtendStream s.c.nestApi s.w.calls s.c.projectId s.c.deviceId
          s.c.mediaSessionId with
        | .error _ => s.c.mediaSessionId
        | .ok (i, _) => i) := by
  rw [ontimer_eq, StartExtendStreamTimer_eq]
  cases env.ExtendStream s.c.nestApi s.w.calls s.c.projectId s.c.deviceId
    s.c.mediaSessionId with
  | error e => exact ⟨rfl, rfl, rfl⟩
  | ok r => exact ⟨rfl, rfl, rfl⟩

theorem fire_some (env : Env) (s : Sys) (id : Nat) (s' : Sys) (h : fire env s id = some s') :
    ∃ t ∈ s.w.timers, t.id = id ∧
      s' = ontimer env
        { s with w := { s.w with timers := s.w.timers.filter (fun u => u.id != id),
                                 now := ⟨max s.w.now.ns t.when.ns⟩ } } := by
  unfold fire at h
  split at h
  · simp at h
  · next t ht =>
    simp only [Option.some.injEq] at h
    refine ⟨t, List.mem_of_find?_eq_some ht, ?_, h.symm⟩
    simpa using List.find?_some ht

/-- C3 (counterexample): the scenario client is started and its timer fires while every
extension fails. After the failed extension a new timer (number 1, delay 0) is armed, and
when it fires a second extension call is made. -/
theorem failed_extension_rearms_timer :
    (exec failingExtendEnv scenarioSys [.start, .fire 0]).map
        (fun s => (extendCalls s.w.calls, s.w.timers)) =
      some ([.ExtendStream "p1" "d1" "s1" (.error "transport error")],
            [{ id := 1, d := 0, when := ⟨30 * Second⟩ }]) ∧
    (exec failingExtendEnv scenarioSys [.start, .fire 0, .fire 1]).map
        (fun s => extendCalls s.w.calls) =
      some [.ExtendStream "p1" "d1" "s1" (.error "transport error"),
            .ExtendStream "p1" "d1" "s1" (.error "transport error")] := by
  decide

/-- C3 (amended): when an armed timer fires, the callback makes exactly one extension call
(with the client's project, device and current session id) and then arms a new timer, whose
handle it stores in the client, whether the extension succeeded or failed. The new timer is
computed from the expiry the client then holds; after a failed extension the session id and
the expiry are the old ones. -/
theorem fire_rearms_whatever_the_result (env : Env) (s : Sys) (id : Nat) (s' : Sys)
    (h : fire env s id = some s') :
    ∃ t,
      extendCalls s'.w.calls = extendCalls s.w.calls ++
        [.ExtendStream s.c.projectId s.c.deviceId s.c.mediaSessionId
          (env.ExtendStream s.c.nestApi s.w.calls s.c.projectId s.c.deviceId
            s.c.mediaSessionId)] ∧
      s'.w.timers = s.w.timers.filter (fun u => u.id != id) ++ [t] ∧
      s'.c.timer = some t.id ∧
      t.id = s.w.nextTimer ∧
      t.d = timeUntil s'.w.now (s'.c.streamExpiresAt.Add (-30 * Second)) ∧
      (∀ e, env.ExtendStream s.c.nestApi s.w.calls s.c.projectId s.c.deviceId
            s.c.mediaSessionId = .error e →
          s'.c.mediaSessionId = s.c.mediaSessionId ∧
          s'.c.streamExpiresAt = s.c.streamExpiresAt) := by
  unfold fire at h
  split at h
  · simp at h
  · next t0 ht0 =>
    simp only [Option.some.injEq] at h
    subst h
    rw [ontimer_eq, StartExtendStreamTimer_eq]
    refine ⟨_, ?_, rfl, rfl, rfl, rfl, ?_⟩
    · simp [World.record, World.opened, World.closed, extendCalls_append, extendCalls]
    · intro e he
      simp [he]

/-- Witness of C3 (amended): the timer of the started scenario client fires while every
extension fails; timer 1 is armed afterwards. -/
theorem fire_rearms_whatever_the_result_witness :
    ∃ s', fire failingExtendEnv (Client.Start failingExtendEnv scenarioSys).1 0 = some s' ∧
      ∃ t, s'.w.timers = [] ++ [t] ∧ s'.c.timer = some t.id ∧ t.id = 1 :=
  ⟨_, rfl,
    (fire_rearms_whatever_the_result failingExtendEnv
      (Client.Start failingExtendEnv scenarioSys).1 0 _ rfl).imp
      (fun _ h => ⟨h.2.1, h.2.2.1, h.2.2.2.1⟩)⟩

/-! ## One step of a run -/

theorem Start_facts (env : Env) (s : Sys) :
    (∃ t, (Client.Start env s).1.w.timers = s.w.timers ++ [t] ∧ t.id = s.w.nextTimer) ∧
    (Client.Start env s).1.c = { s.c with timer := some s.w.nextTimer } ∧
    (Client.Start env s).1.w.nextTimer = s.w.nextTimer + 1 ∧
    extendCalls (Client.Start env s).1.w.calls = extendCalls s.w.calls := by
  have h : (Client.Start env s).1 =
      { Client.StartExtendStreamTimer s with
        w := (Client.StartExtendStreamTimer s).w.record Call.ConnStart } := rfl
  rw [h, StartExtendStreamTimer_eq]
  refine ⟨⟨_, rfl, rfl⟩, rfl, rfl, ?_⟩
  simp [World.record, World.opened, World.closed, extendCalls_append, extendCalls]

theorem Stop_facts (env : Env) (s : Sys) (id : Nat) (h : s.c.timer = some id) :
    ∃ s', Client.Stop env s = .returned (s', env.connStop s.c.conn) ∧
      s'.w.timers = s.w.timers.filter (fun t => t.id != id) ∧
      s'.c = s.c ∧
      s'.w.nextTimer = s.w.nextTimer ∧
      s'.w.calls = s.w.calls ++ [.TimerStop id, .ConnStop] ∧
      s'.w.openPCs = s.w.openPCs.filter (fun p => p != s.c.conn.pc) := by
  refine ⟨{ s with w := (World.record ((timerStop s.w id).closed s.c.conn.pc)
        Call.ConnStop) }, ?_, rfl, rfl, rfl, ?_, rfl⟩
  · simp only [Client.Stop, h]
  · simp [World.record, World.opened, World.closed, timerStop]

theorem step_fresh (env : Env) (s : Sys) (a : Action) (s' : Sys) (hs : Fresh s)
    (ha : a ≠ .start) (h : step env s a = some s') : Fresh s' := by
  obtain ⟨h1, h2⟩ := hs
  cases a with
  | start => exact absurd rfl ha
  | stop => simp [step, Client.Stop, h2] at h
  | fire id => simp [step, fire, h1] at h
  | elapse d =>
    simp only [step, Option.some.injEq] at h
    subst h
    exact ⟨h1, h2⟩

theorem step_start_fresh (env : Env) (s : Sys) (hs : Fresh s) :
    Armed (Client.Start env s).1 := by
  obtain ⟨h1, h2⟩ := hs
  obtain ⟨⟨t, ht, hid⟩, hc, hn, -⟩ := Start_facts env s
  refine ⟨t, by rw [ht, h1]; rfl, by rw [hc, hid], by rw [hn, hid]⟩

theorem step_armed (env : Env) (s : Sys) (a : Action) (s' : Sys) (hs : Armed s)
    (ha : a ≠ .start) (h : step env s a = some s') : Armed s' ∨ Stopped s' := by
  obtain ⟨t, h1, h2, h3⟩ := hs
  cases a with
  | start => exact absurd rfl ha
  | stop =>
    obtain ⟨s1, hs1, ht, hc, -, -, -⟩ := Stop_facts env s t.id h2
    simp only [step, hs1, Option.some.injEq] at h
    subst h
    refine Or.inr ⟨by rw [ht, h1]; simp, by rw [hc, h2]; simp⟩
  | fire id =>
    obtain ⟨t0, hmem, hid, rfl⟩ := fire_some env s id s' h
    rw [h1, List.mem_singleton] at hmem
    subst hmem
    subst hid
    obtain ⟨t1, ht1, hid1⟩ := ontimer_timers env
      { s with w := { s.w with timers := s.w.timers.filter (fun u => u.id != t0.id),
                               now := ⟨max s.w.now.ns t0.when.ns⟩ } }
    refine Or.inl ⟨t1, ?_, ?_, ?_⟩
    · rw [ht1, h1]
      simp
    · rw [ontimer_timer, hid1]
    · rw [ontimer_nextTimer, hid1]
  | elapse d =>
    simp only [step, Option.some.injEq] at h
    subst h
    exact Or.inl ⟨t, h1, h2, h3⟩

theorem step_stopped (env : Env) (s : Sys) (a : Action) (s' : Sys) (hs : Stopped s)
    (ha : a ≠ .start) (h : step env s a = some s') :
    Stopped s' ∧ extendCalls s'.w.calls = extendCalls s.w.calls := by
  obtain ⟨h1, h2⟩ := hs
  cases a with
  | start => exact absurd rfl ha
  | stop =>
    obtain ⟨id, hid⟩ := Option.ne_none_iff_exists'.mp h2
    obtain ⟨s1, hs1, ht, hc, -, hcalls, -⟩ := Stop_facts env s id hid
    simp only [step, hs1, Option.some.injEq] at h
    subst h
    refine ⟨⟨by rw [ht, h1]; rfl, by rw [hc]; exact h2⟩, ?_⟩
    rw [hcalls]
    simp [extendCalls_append, extendCalls]
  | fire id => simp [step, fire, h1] at h
  | elapse d =>
    simp only [step, Option.some.injEq] at h
    subst h
    exact ⟨⟨h1, h2⟩, rfl⟩

/-! ## Runs -/

theorem exec_append (env : Env) (s : Sys) (xs ys : List Action) :
    exec env s (xs ++ ys) = (exec env s xs).bind (fun s1 => exec env s1 ys) := by
  induction xs generalizing s with
  | nil => rfl
  | cons a xs ih =>
    simp only [List.cons_append, exec]
    cases step env s a with
    | none => rfl
    | some s1 => exact ih s1

theorem exec_stopped (env : Env) (acts : List Action) (s s' : Sys) (hs : Stopped s)
    (hno : Action.start ∉ acts) (h : exec env s acts = some s') :
    Stopped s' ∧ extendCalls s'.w.calls = extendCalls s.w.calls := by
  induction acts generalizing s with
  | nil =>
    simp only [exec, Option.some.injEq] at h
    subst h
    exact ⟨hs, rfl⟩
  | cons a as ih =>
    simp only [exec] at h
    cases hstep : step env s a with
    | none => simp [hstep] at h
    | some s1 =>
      rw [hstep] at h
      have ha : a ≠ .start := fun e => hno (e ▸ List.mem_cons_self _ _)
      obtain ⟨h1, h2⟩ := step_stopped env s a s1 hs ha hstep
      obtain ⟨h3, h4⟩ := ih s1 h1 (fun m => hno (List.mem_cons_of_mem _ m)) h
      exact ⟨h3, h4.trans h2⟩

theorem exec_live (env : Env) (acts : List Action) (s s' : Sys) (hs : Armed s ∨ Stopped s)
    (hno : Action.start ∉ acts) (h : exec env s acts = some s') : Armed s' ∨ Stopped s' := by
  induction acts generalizing s with
  | nil =>
    simp only [exec, Option.some.injEq] at h
    subst h
    exact hs
  | cons a as ih =>
    simp only [exec] at h
    cases hstep : step env s a with
    | none => simp [hstep] at h
    | some s1 =>
      rw [hstep] at h
      have ha : a ≠ .start := fun e => hno (e ▸ List.mem_cons_self _ _)
      have h1 : Armed s1 ∨ Stopped s1 := by
        rcases hs with hs | hs
        · exact step_armed env s a s1 hs ha hstep
        · exact Or.inr (step_stopped env s a s1 hs ha hstep).1
      exact ih s1 h1 (fun m => hno (List.mem_cons_of_mem _ m)) h

theorem exec_fresh (env : Env) (acts : List Action) (s s' : Sys) (hs : Fresh s)
    (hone : acts.count .start ≤ 1) (h : exec env s acts = some s') :
    (acts.count .start = 0 ∧ Fresh s') ∨ (acts.count .start = 1 ∧ (Armed s' ∨ Stopped s')) := by
  induction acts generalizing s with
  | nil =>
    simp only [exec, Option.some.injEq] at h
    subst h
    exact Or.inl ⟨rfl, hs⟩
  | cons a as ih =>
    simp only [exec] at h
    cases hstep : step env s a with
    | none => simp [hstep] at h
    | some s1 =>
      rw [hstep] at h
      by_cases ha : a = .start
      · subst ha
        simp only [List.count_cons_self] at hone ⊢
        have hzero : as.count .start = 0 := by omega
        have hno : Action.start ∉ as := List.count_eq_zero.mp hzero
        simp only [step, Option.some.injEq] at hstep
        subst hstep
        exact Or.inr ⟨by omega, exec_live env as _ s' (Or.inl (step_start_fresh env s hs)) hno h⟩
      · have hcount : (a :: as).count .start = as.count .start :=
          List.count_cons_of_ne (fun e => ha e.symm) as
        rw [hcount] at hone ⊢
        exact ih s1 (step_fresh env s a s1 hs ha hstep) hone h

/-! ## Stop -/

/-- C6 (divergence): the client `NewClient` returns has a nil timer, and `Stop` called on it
before any `Start` panics on the nil timer; `conn.Stop()` is not reached. -/
theorem Stop_before_Start_panics :
    NewClient scenarioEnv (World.init ⟨0⟩) scenarioRawURL = (.ok scenarioClient, scenarioWorld) ∧
    scenarioClient.timer = none ∧
    Client.Stop scenarioEnv ⟨scenarioWorld, scenarioClient⟩ =
      .panicked "runtime error: invalid memory address or nil pointer dereference" ∧
    step scenarioEnv ⟨scenarioWorld, scenarioClient⟩ .stop = none := by
  decide

/-! ## Pending timers -/

/-- C7 (counterexample): `Start` is called twice on the scenario client. Two timers, 0 and 1,
are armed at once; the client only holds the handle of timer 1. -/
theorem second_Start_leaves_two_timers :
    (exec scenarioEnv scenarioSys [.start, .start]).map
        (fun s => (s.w.timers.map Timer.id, s.c.timer)) = some ([0, 1], some 1) := by
  decide

/-- C7 (amended): in every state reached from a constructed client by a sequence of `Start`,
`Stop`, timer-fire and clock steps that contains at most one `Start`, at most one timer is
armed, and an armed timer is the one whose handle the client holds and the last one that was
created: the timer that fired before it is no longer armed. -/
theorem at_most_one_timer_when_started_once (env : Env) (now : Time) (rawURL : String)
    (c : Client) (w1 : World) (hnew : NewClient env (World.init now) rawURL = (.ok c, w1))
    (acts : List Action) (hone : acts.count .start ≤ 1) (s : Sys)
    (hrun : exec env ⟨w1, c⟩ acts = some s) :
    s.w.timers.length ≤ 1 ∧
    ∀ t ∈ s.w.timers, s.c.timer = some t.id ∧ t.id + 1 = s.w.nextTimer := by
  have hfresh := (NewClient_fresh env now rawURL c w1 hnew).1
  rcases exec_fresh env acts _ s hfresh hone hrun with ⟨-, h⟩ | ⟨-, h | h⟩
  · rw [h.1]
    simp
  · obtain ⟨t, h1, h2, h3⟩ := h
    rw [h1]
    simp [h2, h3]
  · rw [h.1]
    simp

/-- Witness of C7 (amended): one `Start`, one firing, on the scenario. -/
theorem at_most_one_timer_when_started_once_witness :
    ∃ s, exec scenarioEnv scenarioSys [.start, .fire 0] = some s ∧
      s.w.timers.length ≤ 1 ∧
      ∀ t ∈ s.w.timers, s.c.timer = some t.id ∧ t.id + 1 = s.w.nextTimer :=
  ⟨_, rfl, at_most_one_timer_when_started_once scenarioEnv ⟨0⟩ scenarioRawURL scenarioClient
    scenarioWorld NewClient_scenario [.start, .fire 0] (by decide) _ rfl⟩

/-- After exactly one `Start`, whatever fired since: `Stop` returns, cancels the armed timer
and calls `conn.Stop()`; without a further `Start` nothing is armed or extended again. -/
theorem Stop_after_single_Start (env : Env) (now : Time) (rawURL : String)
    (c : Client) (w1 : World) (hnew : NewClient env (World.init now) rawURL = (.ok c, w1))
    (pre : List Action) (hpre : pre.count .start = 1) (sA : Sys)
    (hA : exec env ⟨w1, c⟩ pre = some sA) :
    ∃ sB, Client.Stop env sA = .returned (sB, env.connStop sA.c.conn) ∧
      sB.w.timers = [] ∧
      Call.ConnStop ∈ sB.w.calls ∧
      (∀ id, fire env sB id = none) ∧
      ∀ post sC, Action.start ∉ post → exec env sB post = some sC →
        sC.w.timers = [] ∧ extendCalls sC.w.calls = extendCalls sB.w.calls := by
  have hfresh := (NewClient_fresh env now rawURL c w1 hnew).1
  have hlive : Armed sA ∨ Stopped sA := by
    rcases exec_fresh env pre _ sA hfresh (le_of_eq hpre) hA with ⟨h0, -⟩ | ⟨-, h⟩
    · omega
    · exact h
  have hstop : ∃ id, sA.c.timer = some id ∧ sA.w.timers.filter (fun t => t.id != id) = [] := by
    rcases hlive with ⟨t, h1, h2, -⟩ | ⟨h1, h2⟩
    · exact ⟨t.id, h2, by rw [h1]; simp⟩
    · obtain ⟨id, hid⟩ := Option.ne_none_iff_exists'.mp h2
      exact ⟨id, hid, by rw [h1]; rfl⟩
  obtain ⟨id, hid, hfilter⟩ := hstop
  obtain ⟨sB, hB, ht, hc, -, hcalls, -⟩ := Stop_facts env sA id hid
  have hBt : sB.w.timers = [] := ht.trans hfilter
  have hBstopped : Stopped sB := ⟨hBt, by rw [hc, hid]; simp⟩
  refine ⟨sB, hB, hBt, by rw [hcalls]; simp, ?_, ?_⟩
  · intro k
    simp [fire, hBt]
  · intro post sC hno hC
    obtain ⟨h1, h2⟩ := exec_stopped env post sB sC hBstopped hno hC
    exact ⟨h1.1, h2⟩

theorem exec_elapse (env : Env) (ds : List Nat) (s : Sys) :
    ∃ s', exec env s (ds.map .elapse) = some s' ∧ s'.w.timers = s.w.timers ∧ s'.c = s.c ∧
      s'.w.calls = s.w.calls := by
  induction ds generalizing s with
  | nil => exact ⟨s, rfl, rfl, rfl, rfl⟩
  | cons d ds ih =>
    obtain ⟨s', h1, h2, h3, h4⟩ := ih { s with w := { s.w with now := ⟨s.w.now.ns + d⟩ } }
    exact ⟨s', h1, h2, h3, h4⟩

/-- C9: take the client `NewClient` returns, call `Start` and let any amount of time pass
without the timer firing. The run exists, the client's renewal timer is then armed (it is the
one pending timer) and no extension call has been made. `Stop` called in that state returns
the result of `conn.Stop()`, which it has called, and leaves no timer pending; no timer can
fire afterwards, and in every continuation made of `Stop`, timer-fire and clock steps no
timer is pending or armed again and no extension call is ever made. (A further `Start` is
not part of the continuation: `Start` is to be called once per manager.) -/
theorem Stop_before_timer_fires_ends_renewal (env : Env) (now : Time) (rawURL : String)
    (c : Client) (w1 : World) (hnew : NewClient env (World.init now) rawURL = (.ok c, w1))
    (ds : List Nat) :
    ∃ sA, exec env ⟨w1, c⟩ (.start :: ds.map .elapse) = some sA ∧
      (∃ t, sA.w.timers = [t] ∧ sA.c.timer = some t.id) ∧
      extendCalls sA.w.calls = [] ∧
      ∃ sB, Client.Stop env sA = .returned (sB, env.connStop sA.c.conn) ∧
        sB.w.timers = [] ∧
        Call.ConnStop ∈ sB.w.calls ∧
        extendCalls sB.w.calls = [] ∧
        (∀ id, fire env sB id = none) ∧
        ∀ post sC, Action.start ∉ post → exec env sB post = some sC →
          sC.w.timers = [] ∧ extendCalls sC.w.calls = [] := by
  obtain ⟨hfresh, -, hext⟩ := NewClient_fresh env now rawURL c w1 hnew
  obtain ⟨sA, hA, ht, hc, hcalls⟩ := exec_elapse env ds (Client.Start env ⟨w1, c⟩).1
  have hrun : exec env ⟨w1, c⟩ (.start :: ds.map .elapse) = some sA := by
    simpa only [exec, step] using hA
  have hcount : (Action.start :: ds.map Action.elapse).count .start = 1 := by
    have h0 : (ds.map Action.elapse).count .start = 0 :=
      List.count_eq_zero.mpr (by simp)
    rw [List.count_cons_self, h0]
  obtain ⟨t, ht1, ht2, -⟩ := step_start_fresh env ⟨w1, c⟩ hfresh
  have hextA : extendCalls sA.w.calls = [] := by
    rw [hcalls, (Start_facts env ⟨w1, c⟩).2.2.2]
    exact hext
  obtain ⟨sB, hB, hBt, hBc, hBf, hpost⟩ :=
    Stop_after_single_Start env now rawURL c w1 hnew _ hcount sA hrun
  have hextB : extendCalls sB.w.calls = [] := by
    have h := (hpost [] sB (by simp) rfl).2
    obtain ⟨id, hid⟩ : ∃ id, sA.c.timer = some id := ⟨t.id, by rw [hc]; exact ht2⟩
    obtain ⟨sB', hB', -, -, -, hcallsB, -⟩ := Stop_facts env sA id hid
    rw [hB] at hB'
    simp only [Outcome.returned.injEq, Prod.mk.injEq, and_true] at hB'
    subst hB'
    rw [hcallsB, extendCalls_append, hextA]
    rfl
  refine ⟨sA, hrun, ⟨t, by rw [ht]; exact ht1, by rw [hc]; exact ht2⟩, hextA, sB, hB, hBt,
    hBc, hextB, hBf, ?_⟩
  intro post sC hno hC
  obtain ⟨h1, h2⟩ := hpost post sC hno hC
  exact ⟨h1, h2.trans hextB⟩

/-- Witness of C9: the scenario client is started, 10 s pass, and `Stop` is called before
the timer (due at 30 s) fires. -/
theorem Stop_before_timer_fires_ends_renewal_witness :
    ∃ sA, exec scenarioEnv scenarioSys [.start, .elapse 10000000000] = some sA ∧
      (∃ t, sA.w.timers = [t] ∧ sA.c.timer = some t.id) ∧
      extendCalls sA.w.calls = [] ∧
      ∃ sB, Client.Stop scenarioEnv sA = .returned (sB, none) ∧
        sB.w.timers = [] ∧
        Call.ConnStop ∈ sB.w.calls ∧
        extendCalls sB.w.calls = [] ∧
        (∀ id, fire scenarioEnv sB id = none) ∧
        ∀ post sC, Action.start ∉ post → exec scenarioEnv sB post = some sC →
          sC.w.timers = [] ∧ extendCalls sC.w.calls = [] :=
  Stop_before_timer_fires_ends_renewal scenarioEnv ⟨0⟩ scenarioRawURL scenarioClient
    scenarioWorld NewClient_scenario [10000000000]

/-! ## The chain of session ids -/

theorem sessionAfter_append (cur : String) (xs ys : List Call) :
    sessionAfter cur (xs ++ ys) = sessionAfter (sessionAfter cur xs) ys := by
  induction xs generalizing cur with
  | nil => rfl
  | cons x xs ih =>
    cases x with
    | ExtendStream p d m res =>
      cases res with
      | error e => exact ih cur
      | ok r => exact ih r.1
    | _ => exact ih cur

theorem sessionChain_append (pid did cur : String) (xs ys : List Call) :
    sessionChain pid did cur (xs ++ ys) =
      (sessionChain pid did cur xs && sessionChain pid did (sessionAfter cur xs) ys) := by
  induction xs generalizing cur with
  | nil => simp [sessionChain, sessionAfter]
  | cons x xs ih =>
    cases x with
    | ExtendStream p d m res =>
      cases res with
      | error e =>
        rw [List.cons_append]
        simp only [sessionChain, sessionAfter, ih, Bool.and_assoc]
      | ok r =>
        rw [List.cons_append]
        simp only [sessionChain, sessionAfter, ih, Bool.and_assoc]
    | _ =>
      rw [List.cons_append]
      simp only [sessionChain, sessionAfter, ih]

theorem ontimer_calls (env : Env) (s : Sys) :
    ∃ d, (ontimer env s).w.calls = s.w.calls ++
      [.ExtendStream s.c.projectId s.c.deviceId s.c.mediaSessionId
        (env.ExtendStream s.c.nestApi s.w.calls s.c.projectId s.c.deviceId
          s.c.mediaSessionId), .AfterFunc d] := by
  rw [ontimer_eq, StartExtendStreamTimer_eq]
  simp only [World.record, World.opened, World.closed, List.append_assoc, List.singleton_append]
  exact ⟨_, rfl⟩

theorem Start_calls (env : Env) (s : Sys) :
    ∃ d, (Client.Start env s).1.w.calls = s.w.calls ++ [.AfterFunc d, .ConnStart] := by
  have h : (Client.Start env s).1 =
      { Client.StartExtendStreamTimer s with
        w := (Client.StartExtendStreamTimer s).w.record Call.ConnStart } := rfl
  rw [h, StartExtendStreamTimer_eq]
  simp only [World.record, World.opened, World.closed, List.append_assoc, List.singleton_append]
  exact ⟨_, rfl⟩

theorem step_chain (env : Env) (pid did sid0 : String) (s : Sys) (a : Action) (s' : Sys)
    (hs : ChainInv pid did sid0 s) (h : step env s a = some s') : ChainInv pid did sid0 s' := by
  obtain ⟨h1, h2, h3, h4⟩ := hs
  cases a with
  | start =>
    simp only [step, Option.some.injEq] at h
    subst h
    obtain ⟨d, hd⟩ := Start_calls env s
    obtain ⟨-, hc, -, -⟩ := Start_facts env s
    refine ⟨by rw [hc]; exact h1, by rw [hc]; exact h2, ?_, ?_⟩
    · rw [hd, sessionChain_append, h3]
      rfl
    · rw [hd, sessionAfter_append, hc]
      exact h4
  | stop =>
    cases hid : s.c.timer with
    | none => simp [step, Client.Stop, hid] at h
    | some id =>
      obtain ⟨s1, hs1, -, hc, -, hcalls, -⟩ := Stop_facts env s id hid
      simp only [step, hs1, Option.some.injEq] at h
      subst h
      refine ⟨by rw [hc]; exact h1, by rw [hc]; exact h2, ?_, ?_⟩
      · rw [hcalls, sessionChain_append, h3]
        rfl
      · rw [hcalls, sessionAfter_append, hc]
        exact h4
  | fire id =>
    obtain ⟨t, -, -, rfl⟩ := fire_some env s id s' h
    obtain ⟨d, hd⟩ := ontimer_calls env
      { s with w := { s.w with timers := s.w.timers.filter (fun u => u.id != id),
                               now := ⟨max s.w.now.ns t.when.ns⟩ } }
    obtain ⟨hp, hdv, hm⟩ := ontimer_ids env
      { s with w := { s.w with timers := s.w.timers.filter (fun u => u.id != id),
                               now := ⟨max s.w.now.ns t.when.ns⟩ } }
    refine ⟨hp.trans h1, hdv.trans h2, ?_, ?_⟩
    · rw [hd, sessionChain_append]
      simp only [h3, Bool.true_and]
      simp [sessionChain, h1, h2, h4]
    · rw [hd, sessionAfter_append, hm]
      simp only
      cases env.ExtendStream s.c.nestApi s.w.calls s.c.projectId s.c.deviceId
        s.c.mediaSessionId with
      | error e => simpa [sessionAfter] using h4
      | ok r => simp [sessionAfter]
  | elapse d =>
    simp only [step, Option.some.injEq] at h
    subst h
    exact ⟨h1, h2, h3, h4⟩

theorem exec_chain (env : Env) (pid did sid0 : String) (acts : List Action) (s s' : Sys)
    (hs : ChainInv pid did sid0 s) (h : exec env s acts = some s') :
    ChainInv pid did sid0 s' := by
  induction acts generalizing s with
  | nil =>
    simp only [exec, Option.some.injEq] at h
    subst h
    exact hs
  | cons a as ih =>
    simp only [exec] at h
    cases hstep : step env s a with
    | none => simp [hstep] at h
    | some s1 =>
      rw [hstep] at h
      exact ih s1 (step_chain env pid did sid0 s a s1 hs hstep) h

theorem fire_armed (env : Env) (s : Sys) (t : Timer) (h : s.w.timers = [t]) :
    fire env s t.id = some (ontimer env
      { s with w := { s.w with timers := [], now := ⟨max s.w.now.ns t.when.ns⟩ } }) := by
  simp [fire, h]

theorem renewalRun_succ (n : Nat) : renewalRun (n + 1) = renewalRun n ++ [.fire n] := by
  simp [renewalRun, List.range_succ]

theorem renewalRun_runs (env : Env) (s0 : Sys) (hf : Fresh s0) (hn : s0.w.nextTimer = 0)
    (n : Nat) :
    ∃ s, exec env s0 (renewalRun n) = some s ∧
      (∃ t, s.w.timers = [t] ∧ t.id = n) ∧ s.w.nextTimer = n + 1 ∧
      (extendCalls s.w.calls).length = (extendCalls s0.w.calls).length + n := by
  induction n with
  | zero =>
    obtain ⟨⟨t, ht, hid⟩, -, hnext, hcalls⟩ := Start_facts env s0
    refine ⟨(Client.Start env s0).1, rfl, ⟨t, by rw [ht, hf.1]; rfl, by rw [hid, hn]⟩,
      by rw [hnext, hn], by rw [hcalls]; rfl⟩
  | succ n ih =>
    obtain ⟨s, hrun, ⟨t, ht, hid⟩, hnext, hlen⟩ := ih
    have hfire := fire_armed env s t ht
    rw [hid] at hfire
    obtain ⟨t1, ht1, hid1⟩ := ontimer_timers env
      { s with w := { s.w with timers := [], now := ⟨max s.w.now.ns t.when.ns⟩ } }
    refine ⟨_, ?_, ⟨t1, by rw [ht1]; rfl, by rw [hid1]; exact hnext⟩, ?_, ?_⟩
    · rw [renewalRun_succ, exec_append, hrun]
      show exec env s [.fire n] = _
      simp only [exec, step, hfire]
    · rw [ontimer_nextTimer]
      simp only [hnext]
    · rw [ontimer_extendCalls]
      simp only [List.length_append, List.length_singleton, hlen]
      omega

/-- C8: take the client `NewClient` returns; its session id is the one `ExchangeSDP` returned
for its project and device. In every run with at most one `Start` (any sequence of `Start`,
`Stop`, timer-fire and clock steps; one `Start` keeps a single timer armed, so callbacks
never overlap) every extension call passes the client's project id and device id and the
current session id: the id from `ExchangeSDP` for the first call, and after a successful
extension the id that extension returned. Runs with any number `n` of renewals exist: after
`Start` the timers `0 .. n-1` fire in turn and exactly `n` extension calls are made. -/
theorem extension_calls_pass_current_session (env : Env) (now : Time) (rawURL : String)
    (c : Client) (w1 : World) (hnew : NewClient env (World.init now) rawURL = (.ok c, w1)) :
    (∃ api offer answer exp,
      Call.ExchangeSDP c.projectId c.deviceId offer ∈ w1.calls ∧
      env.ExchangeSDP api c.projectId c.deviceId offer = .ok (answer, c.mediaSessionId, exp)) ∧
    (∀ acts s, acts.count .start ≤ 1 → exec env ⟨w1, c⟩ acts = some s →
      sessionChain c.projectId c.deviceId c.mediaSessionId s.w.calls = true ∧
      s.c.projectId = c.projectId ∧ s.c.deviceId = c.deviceId ∧
      s.c.mediaSessionId = sessionAfter c.mediaSessionId s.w.calls) ∧
    (∀ n, ∃ s, exec env ⟨w1, c⟩ (renewalRun n) = some s ∧
      (extendCalls s.w.calls).length = n) := by
  obtain ⟨hfresh, hnext, hext⟩ := NewClient_fresh env now rawURL c w1 hnew
  obtain ⟨u, api, pc, offer, answer, sid, exp, -, hx, rfl, rfl⟩ := NewClient_ok env _ _ _ _ hnew
  refine ⟨⟨api, offer, answer, exp, by simp [exchangeCall, World.init], hx⟩, ?_, ?_⟩
  · intro acts s _ hrun
    have h0 : ChainInv (u.Query.Get "project_id") (u.Query.Get "device_id") sid
        ⟨{ World.init now with
            calls := (World.init now).calls ++ [apiCall u.Query, .webrtcNewAPI,
              .NewPeerConnection, .CreateCompleteOffer medias, exchangeCall u.Query offer,
              .SetAnswer answer],
            openPCs := (World.init now).openPCs ++ [pc] },
         { conn := nestConn pc, projectId := u.Query.Get "project_id",
           deviceId := u.Query.Get "device_id", mediaSessionId := sid,
           streamExpiresAt := exp, nestApi := api, timer := none }⟩ :=
      ⟨rfl, rfl, rfl, rfl⟩
    obtain ⟨h1, h2, h3, h4⟩ := exec_chain env _ _ _ acts _ s h0 hrun
    exact ⟨h3, h1, h2, h4⟩
  · intro n
    obtain ⟨s, hrun, -, -, hlen⟩ := renewalRun_runs env _ hfresh hnext n
    refine ⟨s, hrun, ?_⟩
    rw [hlen, hext]
    simp

/-- Witness of C8, the scenario of the specification: the exchange returns `s1` expiring at
60 s; the first extension is called with `s1` (the clock then stands at 30 s) and returns `s2`
expiring at 150 s; the second is called with `s2`, at 120 s. -/
theorem extension_calls_pass_current_session_witness :
    ∃ s, exec scenarioEnv scenarioSys (renewalRun 2) = some s ∧
      sessionChain "p1" "d1" "s1" s.w.calls = true ∧
      extendCalls s.w.calls =
        [.ExtendStream "p1" "d1" "s1" (.ok ("s2", ⟨150 * Second⟩)),
         .ExtendStream "p1" "d1" "s2" (.ok ("s3", ⟨240 * Second⟩))] ∧
      s.w.now = ⟨120 * Second⟩ :=
  ⟨_, rfl,
    ((extension_calls_pass_current_session scenarioEnv ⟨0⟩ scenarioRawURL scenarioClient
      scenarioWorld NewClient_scenario).2.1 (renewalRun 2) _ (by decide) rfl).1,
    by decide, by decide⟩

end Nest
